import Mathlib

/-!
Shallow embedding of `src/quantum/deferred_exec.c`, the fixed-capacity deferred
execution scheduler: a table of executor slots, an occupancy bitmap, a banded
token scheme, and the producer operations (`defer_exec_advanced`,
`extend_deferred_exec_advanced`, `cancel_deferred_exec_advanced`) together with
the periodic scan `deferred_exec_advanced_task`.

Machine integers are modelled as `Nat` with explicit reduction modulo the
relevant power of two where the C code truncates (`uint8_t` tokens and bitmap,
`uint32_t` timestamps).  Function pointers (`deferred_exec_callback`, `void *`)
are modelled as `Nat` with `0` playing the role of `NULL`; the behaviour of a
callback is supplied to the tick routine as an oracle
`beh : Nat → Nat → Nat → Nat` mapping (callback pointer, trigger time,
argument) to the returned re-arm delay.  Invoking a `NULL` function pointer is
undefined behaviour in C; the tick model aborts with `Except.error ()` at that
point.
-/

namespace DeferredExec

/-- Default configuration of `MAX_DEFERRED_EXECUTORS` (the `#ifndef` default, 4). -/
def MAX_DEFERRED_EXECUTORS : Nat := 4

/-- `MAX_TOKEN_VALUE` for the configuration `MAX_DEFERRED_EXECUTORS < 9`
(the `uint8_t` token/bitmap configuration): 256. -/
def MAX_TOKEN_VALUE : Nat := 256

/-- Modelled from the spec: `INVALID_DEFERRED_TOKEN` is declared in
`deferred_exec.h`, which is not among the sources; the spec reserves the token
value 0 for it ("The value '0' is reserved for the invalid token"). -/
def INVALID_DEFERRED_TOKEN : Nat := 0

/-- Size of the token band owned by one slot: `MAX_TOKEN_VALUE / MAX_DEFERRED_EXECUTORS`. -/
def BAND_SIZE : Nat := MAX_TOKEN_VALUE / MAX_DEFERRED_EXECUTORS

/-- Modulus of `uint32_t` arithmetic. -/
def UINT32_MOD : Nat := 2 ^ 32

/-- Modelled from the spec: `TIMER_DIFF_32(a, b)` from `timer.h` (not among the
sources) is the unsigned 32-bit difference `a - b`, which the C code casts to
`int32_t`; the spec calls it the "wraparound-safe signed difference". -/
def timer_diff_32 (a b : Nat) : Int :=
  let d := (a % UINT32_MOD + (UINT32_MOD - b % UINT32_MOD)) % UINT32_MOD
  if d < 2 ^ 31 then (d : Int) else (d : Int) - (UINT32_MOD : Int)

/-- One executor slot (`struct deferred_executor_t`): token, trigger time,
callback function pointer and callback argument. -/
structure deferred_executor_t where
  token : Nat
  trigger_time : Nat
  callback : Nat
  cb_arg : Nat
deriving Repr, DecidableEq

instance : Inhabited deferred_executor_t := ⟨⟨0, 0, 0, 0⟩⟩

/-- The mutable module state: `last_deferred_exec_check`, the slot array
`basic_executors` and the occupancy bitmap `basic_executors_free`
(bit i set means slot i is occupied). -/
structure DeferredState where
  last_deferred_exec_check : Nat
  basic_executors : List deferred_executor_t
  basic_executors_free : Nat
deriving Repr, DecidableEq

/-- The statically zero-initialised state of the module. -/
def initial_state : DeferredState :=
  ⟨0, List.replicate MAX_DEFERRED_EXECUTORS default, 0⟩

/-- The bitmap scan of `defer_exec_advanced`: starting from bit position `i` of
the shifted snapshot `free`, return the first index whose bit is clear, for at
most `fuel` iterations (`fuel = MAX_DEFERRED_EXECUTORS` at the top call). -/
def scanFree : Nat → Nat → Nat → Option Nat
  | _free, _i, 0 => none
  | free, i, fuel + 1 => if free % 2 = 0 then some i else scanFree (free / 2) (i + 1) fuel

/-- The token update of `defer_exec_advanced` on slot `i` with previous token
field `old`: increment (with `uint8_t` truncation), wrap to the band start when
the band top is reached, and skip the reserved invalid value. -/
def next_token (i old : Nat) : Nat :=
  let t := (old + 1) % MAX_TOKEN_VALUE
  if i * BAND_SIZE + BAND_SIZE - 1 ≤ t then
    if i * BAND_SIZE = INVALID_DEFERRED_TOKEN then INVALID_DEFERRED_TOKEN + 1
    else i * BAND_SIZE
  else t

/-- `defer_exec_advanced(delay_ms, callback, cb_arg)`; `now` models the
`timer_read32()` call.  Returns the updated state and the returned token. -/
def defer_exec_advanced (st : DeferredState) (now delay_ms callback cb_arg : Nat) :
    DeferredState × Nat :=
  if delay_ms = 0 ∨ callback = 0 then (st, INVALID_DEFERRED_TOKEN)
  else
    match scanFree st.basic_executors_free 0 MAX_DEFERRED_EXECUTORS with
    | none => (st, INVALID_DEFERRED_TOKEN)
    | some i =>
      let entry := st.basic_executors.getD i default
      let tok := next_token i entry.token
      (⟨st.last_deferred_exec_check,
        st.basic_executors.set i ⟨tok, (now + delay_ms) % UINT32_MOD, callback, cb_arg⟩,
        (st.basic_executors_free ||| 2 ^ i) % 256⟩, tok)

/-- Candidate index recovery used by extend and cancel:
`token / (MAX_TOKEN_VALUE / MAX_DEFERRED_EXECUTORS)`. -/
def recover_index (token : Nat) : Nat :=
  token / (MAX_TOKEN_VALUE / MAX_DEFERRED_EXECUTORS)

/-- `extend_deferred_exec_advanced(token, delay_ms)`; `now` models the
`timer_read32()` call. -/
def extend_deferred_exec_advanced (st : DeferredState) (now token delay_ms : Nat) :
    DeferredState × Bool :=
  if delay_ms = 0 ∨ token = INVALID_DEFERRED_TOKEN then (st, false)
  else
    let index := recover_index token
    let entry := st.basic_executors.getD index default
    if entry.token = token then
      (⟨st.last_deferred_exec_check,
        st.basic_executors.set index
          ⟨entry.token, (now + delay_ms) % UINT32_MOD, entry.callback, entry.cb_arg⟩,
        st.basic_executors_free⟩, true)
    else (st, false)

/-- `cancel_deferred_exec_advanced(token)`: clears the callback and argument on
a token match, leaving the token field and the occupancy bit untouched. -/
def cancel_deferred_exec_advanced (st : DeferredState) (token : Nat) :
    DeferredState × Bool :=
  let index := recover_index token
  let entry := st.basic_executors.getD index default
  if entry.token = token then
    (⟨st.last_deferred_exec_check,
      st.basic_executors.set index ⟨entry.token, entry.trigger_time, 0, 0⟩,
      st.basic_executors_free⟩, true)
  else (st, false)

/-- Clearing of occupancy bit `i`: `basic_executors_free &= ~(1 << i)` on the
`uint8_t` bitmap. -/
def clear_bit (occ i : Nat) : Nat := occ &&& (255 ^^^ (2 ^ i % 256))

/-- Output of one tick scan: updated slot array, updated occupancy bitmap, and
the list of performed callback invocations as (slot index, callback pointer,
trigger time, argument). -/
structure TickResult where
  execs : List deferred_executor_t
  occ : Nat
  events : List (Nat × Nat × Nat × Nat)
deriving Repr, DecidableEq

/-- The scan loop of `deferred_exec_advanced_task`: `free` is the shifted
snapshot of the bitmap taken before the loop, `i` the current slot index, `occ`
the live bitmap.  `fuel` bounds the iteration count; with `fuel = 8` this is
exact for any `uint8_t` snapshot (`free < 256`).  Invoking a `NULL` callback is
C undefined behaviour and aborts the model with `Except.error ()`. -/
def tick_loop (beh : Nat → Nat → Nat → Nat) (now : Nat) :
    Nat → List deferred_executor_t → Nat → Nat → Nat → Except Unit TickResult
  | 0, execs, occ, _free, _i => .ok ⟨execs, occ, []⟩
  | fuel + 1, execs, occ, free, i =>
    if free = 0 then .ok ⟨execs, occ, []⟩
    else if free % 2 = 1 then
      let entry := execs.getD i default
      if entry.token ≠ INVALID_DEFERRED_TOKEN ∧ timer_diff_32 entry.trigger_time now ≤ 0 then
        if entry.callback = 0 then .error ()
        else
          let d := beh entry.callback entry.trigger_time entry.cb_arg
          if 0 < d then
            (tick_loop beh now fuel
                (execs.set i ⟨entry.token, (entry.trigger_time + d) % UINT32_MOD,
                  entry.callback, entry.cb_arg⟩) occ (free / 2) (i + 1)).map
              (fun out => ⟨out.execs, out.occ,
                (i, entry.callback, entry.trigger_time, entry.cb_arg) :: out.events⟩)
          else
            (tick_loop beh now fuel
                (execs.set i ⟨entry.token, entry.trigger_time, 0, 0⟩)
                (clear_bit occ i) (free / 2) (i + 1)).map
              (fun out => ⟨out.execs, out.occ,
                (i, entry.callback, entry.trigger_time, entry.cb_arg) :: out.events⟩)
      else tick_loop beh now fuel execs occ (free / 2) (i + 1)
    else tick_loop beh now fuel execs occ (free / 2) (i + 1)

/-- `deferred_exec_advanced_task()`: the millisecond throttle followed by the
scan loop.  `now` models the `timer_read32()` call; `beh` is the callback
behaviour oracle.  Returns the updated state and the invocation events, or
`Except.error ()` when the scan invokes a `NULL` callback. -/
def deferred_exec_advanced_task (beh : Nat → Nat → Nat → Nat) (st : DeferredState)
    (now : Nat) : Except Unit (DeferredState × List (Nat × Nat × Nat × Nat)) :=
  if 0 < timer_diff_32 now st.last_deferred_exec_check then
    match tick_loop beh now 8 st.basic_executors st.basic_executors_free
        st.basic_executors_free 0 with
    | .error e => .error e
    | .ok r => .ok (⟨now % UINT32_MOD, r.execs, r.occ⟩, r.events)
  else .ok (st, [])

/-- The basic API wrapper `defer_exec`. -/
def defer_exec (st : DeferredState) (now delay_ms callback cb_arg : Nat) :
    DeferredState × Nat :=
  defer_exec_advanced st now delay_ms callback cb_arg

/-- The basic API wrapper `extend_deferred_exec`. -/
def extend_deferred_exec (st : DeferredState) (now token delay_ms : Nat) :
    DeferredState × Bool :=
  extend_deferred_exec_advanced st now token delay_ms

/-- The basic API wrapper `cancel_deferred_exec`. -/
def cancel_deferred_exec (st : DeferredState) (token : Nat) : DeferredState × Bool :=
  cancel_deferred_exec_advanced st token

/-- The basic API wrapper `deferred_exec_task`. -/
def deferred_exec_task (beh : Nat → Nat → Nat → Nat) (st : DeferredState) (now : Nat) :
    Except Unit (DeferredState × List (Nat × Nat × Nat × Nat)) :=
  deferred_exec_advanced_task beh st now

/-- Boolean test for the error (undefined behaviour) outcome of a tick. -/
def tickAborted (r : Except Unit (DeferredState × List (Nat × Nat × Nat × Nat))) : Bool :=
  match r with
  | .error _ => true
  | .ok _ => false

/-! ### Concrete states used by counterexamples and witnesses -/

/-- Result of one schedule call on the fresh module state. -/
def st_one : DeferredState × Nat := defer_exec_advanced initial_state 0 10 1 0

/-- Result of a second schedule call. -/
def st_two : DeferredState × Nat := defer_exec_advanced st_one.1 0 10 1 0

/-- A callback behaviour oracle whose callbacks always decline repetition. -/
def beh0 : Nat → Nat → Nat → Nat := fun _ _ _ => 0

/-- State with one pending execution (token 1, due at millisecond 1). -/
def st_c3a : DeferredState := (defer_exec_advanced initial_state 0 1 1 0).1

/-- The state of `st_c3a` after a successful cancel of token 1. -/
def st_c3b : DeferredState := (cancel_deferred_exec_advanced st_c3a 1).1

/-- State with one pending execution (token 1, callback pointer 7, due at 1). -/
def st_f1 : DeferredState := (defer_exec_advanced initial_state 0 1 7 0).1

/-- The state of `st_f1` after its booking fired at millisecond 1 and declined
repetition: the slot is reclaimed but its token field still holds 1. -/
def st_f2 : DeferredState :=
  match deferred_exec_advanced_task beh0 st_f1 1 with
  | .ok r => r.1
  | .error _ => initial_state

/-- State with one pending execution (token 1, callback pointer 7, argument 9,
due at millisecond 5). -/
def stW : DeferredState := (defer_exec_advanced initial_state 0 5 7 9).1

/-- The state of `stW` after the tick at millisecond 5 fired the booking and the
callback declined repetition. -/
def stW2 : DeferredState := ⟨5, [⟨1, 5, 0, 0⟩, default, default, default], 0⟩

/-! ### Helper lemmas -/

theorem getD_set_self {α : Type} (l : List α) (i : Nat) (a d : α) (h : i < l.length) :
    (l.set i a).getD i d = a := by
  rw [List.getD_eq_getElem?_getD, List.getElem?_set_self h]; rfl

theorem getD_set_ne {α : Type} (l : List α) {i j : Nat} (hne : i ≠ j) (a d : α) :
    (l.set i a).getD j d = l.getD j d := by
  rw [List.getD_eq_getElem?_getD, List.getElem?_set_ne hne, ← List.getD_eq_getElem?_getD]

theorem two_pow_lt_256 {i : Nat} (hi : i < 8) : 2 ^ i < 256 := by
  calc 2 ^ i < 2 ^ 8 := Nat.pow_lt_pow_right (by norm_num) hi
  _ = 256 := by norm_num

theorem clear_bit_testBit_self (occ i : Nat) (hi : i < 8) :
    (clear_bit occ i).testBit i = false := by
  unfold clear_bit
  rw [Nat.testBit_and, Nat.testBit_xor, show (255 : Nat) = 2 ^ 8 - 1 by norm_num,
    Nat.testBit_two_pow_sub_one, Nat.mod_eq_of_lt (two_pow_lt_256 hi),
    Nat.testBit_two_pow_self]
  simp [hi]

theorem clear_bit_testBit_ne (occ i j : Nat) (hi : i < 8) (hj : j < 8) (hne : i ≠ j) :
    (clear_bit occ i).testBit j = occ.testBit j := by
  unfold clear_bit
  rw [Nat.testBit_and, Nat.testBit_xor, show (255 : Nat) = 2 ^ 8 - 1 by norm_num,
    Nat.testBit_two_pow_sub_one, Nat.mod_eq_of_lt (two_pow_lt_256 hi),
    Nat.testBit_two_pow_of_ne hne]
  simp [hj]

theorem or_two_pow_testBit_self (occ i : Nat) : (occ ||| 2 ^ i).testBit i = true := by
  rw [Nat.testBit_or, Nat.testBit_two_pow_self]; simp

theorem or_two_pow_testBit_ne (occ i j : Nat) (hne : i ≠ j) :
    (occ ||| 2 ^ i).testBit j = occ.testBit j := by
  rw [Nat.testBit_or, Nat.testBit_two_pow_of_ne hne]; simp

theorem timer_diff_32_self_mod (now : Nat) : timer_diff_32 now (now % UINT32_MOD) = 0 := by
  have h : (now % UINT32_MOD + (UINT32_MOD - now % UINT32_MOD % UINT32_MOD)) % UINT32_MOD
      = 0 := by
    unfold UINT32_MOD; omega
  unfold timer_diff_32
  simp only [h]
  norm_num

theorem scanFree_unfold (f : Nat) :
    scanFree f 0 MAX_DEFERRED_EXECUTORS =
      if f % 2 = 0 then some 0
      else if f / 2 % 2 = 0 then some 1
      else if f / 4 % 2 = 0 then some 2
      else if f / 8 % 2 = 0 then some 3
      else none := by
  show scanFree f 0 4 = _
  simp only [scanFree, Nat.div_div_eq_div_mul]

theorem scanFree_none_iff (f : Nat) :
    scanFree f 0 MAX_DEFERRED_EXECUTORS = none ↔ ∀ i, i < 4 → f / 2 ^ i % 2 = 1 := by
  rw [scanFree_unfold]
  constructor
  · intro h i hi
    by_cases a : f % 2 = 0
    · rw [if_pos a] at h; exact absurd h (by simp)
    · rw [if_neg a] at h
      by_cases b : f / 2 % 2 = 0
      · rw [if_pos b] at h; exact absurd h (by simp)
      · rw [if_neg b] at h
        by_cases c : f / 4 % 2 = 0
        · rw [if_pos c] at h; exact absurd h (by simp)
        · rw [if_neg c] at h
          by_cases d : f / 8 % 2 = 0
          · rw [if_pos d] at h; exact absurd h (by simp)
          · interval_cases i <;> norm_num <;> omega
  · intro h
    have h0 := h 0 (by norm_num); have h1 := h 1 (by norm_num)
    have h2 := h 2 (by norm_num); have h3 := h 3 (by norm_num)
    norm_num at h0 h1 h2 h3
    rw [if_neg (by omega), if_neg (by omega), if_neg (by omega), if_neg (by omega)]

theorem scanFree_some_of_lowest (f i : Nat) (hi : i < 4)
    (hfree : f / 2 ^ i % 2 = 0) (hocc : ∀ j, j < i → f / 2 ^ j % 2 = 1) :
    scanFree f 0 MAX_DEFERRED_EXECUTORS = some i := by
  rw [scanFree_unfold]
  interval_cases i
  · rw [if_pos (by norm_num at hfree; omega)]
  · have h0 := hocc 0 (by norm_num)
    norm_num at h0 hfree
    rw [if_neg (by omega), if_pos (by omega)]
  · have h0 := hocc 0 (by norm_num); have h1 := hocc 1 (by norm_num)
    norm_num at h0 h1 hfree
    rw [if_neg (by omega), if_neg (by omega), if_pos (by omega)]
  · have h0 := hocc 0 (by norm_num); have h1 := hocc 1 (by norm_num)
    have h2 := hocc 2 (by norm_num)
    norm_num at h0 h1 h2 hfree
    rw [if_neg (by omega), if_neg (by omega), if_neg (by omega), if_pos (by omega)]

theorem cancel_eq_of_match (st : DeferredState) (token : Nat)
    (hm : (st.basic_executors.getD (recover_index token) default).token = token) :
    cancel_deferred_exec_advanced st token =
      (⟨st.last_deferred_exec_check,
        st.basic_executors.set (recover_index token)
          ⟨(st.basic_executors.getD (recover_index token) default).token,
           (st.basic_executors.getD (recover_index token) default).trigger_time, 0, 0⟩,
        st.basic_executors_free⟩, true) := by
  simp only [cancel_deferred_exec_advanced]
  rw [if_pos hm]

theorem cancel_eq_of_mismatch (st : DeferredState) (token : Nat)
    (hm : (st.basic_executors.getD (recover_index token) default).token ≠ token) :
    cancel_deferred_exec_advanced st token = (st, false) := by
  simp only [cancel_deferred_exec_advanced]
  rw [if_neg hm]

theorem scanFree_some_lt (f i : Nat)
    (h : scanFree f 0 MAX_DEFERRED_EXECUTORS = some i) : i < 4 := by
  rw [scanFree_unfold] at h
  by_cases a : f % 2 = 0
  · rw [if_pos a] at h; injection h with h; omega
  · rw [if_neg a] at h
    by_cases b : f / 2 % 2 = 0
    · rw [if_pos b] at h; injection h with h; omega
    · rw [if_neg b] at h
      by_cases c : f / 4 % 2 = 0
      · rw [if_pos c] at h; injection h with h; omega
      · rw [if_neg c] at h
        by_cases d : f / 8 % 2 = 0
        · rw [if_pos d] at h; injection h with h; omega
        · rw [if_neg d] at h; exact absurd h (by simp)

theorem next_token_ne_zero (i old : Nat) (_hi : i < 4) (hold : old < 255) :
    next_token i old ≠ INVALID_DEFERRED_TOKEN := by
  simp only [next_token, BAND_SIZE, MAX_TOKEN_VALUE, MAX_DEFERRED_EXECUTORS,
    INVALID_DEFERRED_TOKEN]
  split_ifs <;> omega

theorem next_token_lt (i old : Nat) (hi : i < 4) : next_token i old < 255 := by
  simp only [next_token, BAND_SIZE, MAX_TOKEN_VALUE, MAX_DEFERRED_EXECUTORS,
    INVALID_DEFERRED_TOKEN]
  split_ifs <;> omega

theorem getD_token_lt (l : List deferred_executor_t) (i : Nat)
    (htok : ∀ e ∈ l, e.token < 255) :
    (l.getD i default).token < 255 := by
  by_cases hl : i < l.length
  · rw [List.getD_eq_getElem _ _ hl]
    exact htok _ (List.getElem_mem hl)
  · rw [List.getD_eq_getElem?_getD, List.getElem?_eq_none (by omega)]
    decide

theorem defer_eq_of_some (st : DeferredState) (now delay_ms cb arg i : Nat)
    (hz : ¬(delay_ms = 0 ∨ cb = 0))
    (hscan : scanFree st.basic_executors_free 0 MAX_DEFERRED_EXECUTORS = some i) :
    defer_exec_advanced st now delay_ms cb arg =
      (⟨st.last_deferred_exec_check,
        st.basic_executors.set i
          ⟨next_token i (st.basic_executors.getD i default).token,
           (now + delay_ms) % UINT32_MOD, cb, arg⟩,
        (st.basic_executors_free ||| 2 ^ i) % 256⟩,
       next_token i (st.basic_executors.getD i default).token) := by
  simp only [defer_exec_advanced]
  rw [if_neg hz, hscan]

theorem except_map_ok {ε α β : Type} (f : α → β) (x : Except ε α) (r : β)
    (h : x.map f = .ok r) : ∃ out, x = .ok out ∧ f out = r := by
  cases x with
  | error e => exact absurd h (by simp [Except.map])
  | ok a =>
    refine ⟨a, rfl, ?_⟩
    simp only [Except.map] at h
    injection h

theorem tick_loop_frame (beh : Nat → Nat → Nat → Nat) (now : Nat) :
    ∀ fuel execs occ free i r, i + fuel ≤ 8 →
      tick_loop beh now fuel execs occ free i = .ok r →
      (∀ j, j < i → r.execs.getD j default = execs.getD j default) ∧
      (∀ j, j < i → r.occ.testBit j = occ.testBit j) ∧
      (∀ e ∈ r.events, i ≤ e.1) := by
  intro fuel
  induction fuel with
  | zero =>
    intro execs occ free i r _ h
    simp only [tick_loop] at h
    injection h with h
    subst h
    exact ⟨fun j _ => rfl, fun j _ => rfl, by simp⟩
  | succ fuel ih =>
    intro execs occ free i r hle h
    simp only [tick_loop] at h
    by_cases hfree : free = 0
    · rw [if_pos hfree] at h
      injection h with h
      subst h
      exact ⟨fun j _ => rfl, fun j _ => rfl, by simp⟩
    · rw [if_neg hfree] at h
      by_cases hbit : free % 2 = 1
      · rw [if_pos hbit] at h
        by_cases hdue : (execs.getD i default).token ≠ INVALID_DEFERRED_TOKEN ∧
            timer_diff_32 (execs.getD i default).trigger_time now ≤ 0
        · rw [if_pos hdue] at h
          by_cases hcb : (execs.getD i default).callback = 0
          · rw [if_pos hcb] at h
            exact absurd h (by simp)
          · rw [if_neg hcb] at h
            by_cases hd : 0 < beh (execs.getD i default).callback
                (execs.getD i default).trigger_time (execs.getD i default).cb_arg
            · rw [if_pos hd] at h
              obtain ⟨out, hrec, hout⟩ := except_map_ok _ _ _ h
              obtain ⟨f1, f2, f3⟩ := ih _ _ _ _ _ (by omega) hrec
              subst hout
              refine ⟨?_, ?_, ?_⟩
              · intro j hj
                show out.execs.getD j default = execs.getD j default
                rw [f1 j (by omega), getD_set_ne _ (by omega : i ≠ j) _ _]
              · intro j hj
                show out.occ.testBit j = occ.testBit j
                exact f2 j (by omega)
              · intro e he
                rcases List.mem_cons.mp he with he | he
                · subst he; exact Nat.le_refl i
                · exact Nat.le_of_succ_le (f3 e he)
            · rw [if_neg hd] at h
              obtain ⟨out, hrec, hout⟩ := except_map_ok _ _ _ h
              obtain ⟨f1, f2, f3⟩ := ih _ _ _ _ _ (by omega) hrec
              subst hout
              refine ⟨?_, ?_, ?_⟩
              · intro j hj
                show out.execs.getD j default = execs.getD j default
                rw [f1 j (by omega), getD_set_ne _ (by omega : i ≠ j) _ _]
              · intro j hj
                show out.occ.testBit j = occ.testBit j
                rw [f2 j (by omega),
                  clear_bit_testBit_ne occ i j (by omega) (by omega) (by omega)]
              · intro e he
                rcases List.mem_cons.mp he with he | he
                · subst he; exact Nat.le_refl i
                · exact Nat.le_of_succ_le (f3 e he)
        · rw [if_neg hdue] at h
          obtain ⟨f1, f2, f3⟩ := ih _ _ _ _ _ (by omega) h
          exact ⟨fun j hj => f1 j (by omega), fun j hj => f2 j (by omega),
            fun e he => Nat.le_of_succ_le (f3 e he)⟩
      · rw [if_neg hbit] at h
        obtain ⟨f1, f2, f3⟩ := ih _ _ _ _ _ (by omega) h
        exact ⟨fun j hj => f1 j (by omega), fun j hj => f2 j (by omega),
          fun e he => Nat.le_of_succ_le (f3 e he)⟩

theorem tick_loop_due (beh : Nat → Nat → Nat → Nat) (now : Nat) :
    ∀ fuel k execs occ free i r,
      tick_loop beh now fuel execs occ free i = .ok r →
      i + fuel ≤ 8 →
      k < fuel →
      free / 2 ^ k % 2 = 1 →
      i + k < execs.length →
      (execs.getD (i + k) default).token ≠ INVALID_DEFERRED_TOKEN →
      timer_diff_32 (execs.getD (i + k) default).trigger_time now ≤ 0 →
      (execs.getD (i + k) default).callback ≠ 0 →
      (r.events.filter (fun e => e.1 == i + k) =
        [(i + k, (execs.getD (i + k) default).callback,
          (execs.getD (i + k) default).trigger_time,
          (execs.getD (i + k) default).cb_arg)]) ∧
      (0 < beh (execs.getD (i + k) default).callback
          (execs.getD (i + k) default).trigger_time
          (execs.getD (i + k) default).cb_arg →
        r.execs.getD (i + k) default =
          ⟨(execs.getD (i + k) default).token,
           ((execs.getD (i + k) default).trigger_time +
             beh (execs.getD (i + k) default).callback
               (execs.getD (i + k) default).trigger_time
               (execs.getD (i + k) default).cb_arg) % UINT32_MOD,
           (execs.getD (i + k) default).callback,
           (execs.getD (i + k) default).cb_arg⟩) ∧
      (beh (execs.getD (i + k) default).callback
          (execs.getD (i + k) default).trigger_time
          (execs.getD (i + k) default).cb_arg = 0 →
        r.execs.getD (i + k) default =
          ⟨(execs.getD (i + k) default).token,
           (execs.getD (i + k) default).trigger_time, 0, 0⟩ ∧
        r.occ.testBit (i + k) = false) := by
  intro fuel
  induction fuel with
  | zero =>
    intro k execs occ free i r _h _hle hk
    exact absurd hk (Nat.not_lt_zero k)
  | succ fuel ih =>
    intro k execs occ free i r h hle hk hbitk hlen htok hdue hcb
    simp only [tick_loop] at h
    by_cases hfree : free = 0
    · subst hfree
      simp at hbitk
    · rw [if_neg hfree] at h
      cases k with
      | zero =>
        rw [Nat.add_zero] at hlen htok hdue hcb ⊢
        have hb : free % 2 = 1 := by simpa using hbitk
        rw [if_pos hb, if_pos ⟨htok, hdue⟩, if_neg hcb] at h
        by_cases hd : 0 < beh (execs.getD i default).callback
            (execs.getD i default).trigger_time (execs.getD i default).cb_arg
        · rw [if_pos hd] at h
          obtain ⟨out, hrec, hout⟩ := except_map_ok _ _ _ h
          obtain ⟨f1, _f2, f3⟩ := tick_loop_frame beh now fuel _ _ _ _ _ (by omega) hrec
          have hev : r.events = (i, (execs.getD i default).callback,
              (execs.getD i default).trigger_time,
              (execs.getD i default).cb_arg) :: out.events := by rw [← hout]
          have hex : r.execs = out.execs := by rw [← hout]
          refine ⟨?_, ?_, ?_⟩
          · rw [hev, List.filter_cons, if_pos (by simp)]
            have hnil : out.events.filter (fun e => e.1 == i) = [] := by
              rw [List.filter_eq_nil_iff]
              intro e he
              have h3 := f3 e he
              simp only [beq_iff_eq]
              omega
            rw [hnil]
          · intro _
            rw [hex, f1 i (Nat.lt_succ_self i), getD_set_self _ _ _ _ hlen]
          · intro h0
            exact absurd h0 (by omega)
        · rw [if_neg hd] at h
          obtain ⟨out, hrec, hout⟩ := except_map_ok _ _ _ h
          obtain ⟨f1, f2, f3⟩ := tick_loop_frame beh now fuel _ _ _ _ _ (by omega) hrec
          have hev : r.events = (i, (execs.getD i default).callback,
              (execs.getD i default).trigger_time,
              (execs.getD i default).cb_arg) :: out.events := by rw [← hout]
          have hex : r.execs = out.execs := by rw [← hout]
          have hoc : r.occ = out.occ := by rw [← hout]
          refine ⟨?_, ?_, ?_⟩
          · rw [hev, List.filter_cons, if_pos (by simp)]
            have hnil : out.events.filter (fun e => e.1 == i) = [] := by
              rw [List.filter_eq_nil_iff]
              intro e he
              have h3 := f3 e he
              simp only [beq_iff_eq]
              omega
            rw [hnil]
          · intro h0
            exact absurd h0 hd
          · intro _
            constructor
            · rw [hex, f1 i (Nat.lt_succ_self i), getD_set_self _ _ _ _ hlen]
            · rw [hoc, f2 i (Nat.lt_succ_self i), clear_bit_testBit_self occ i (by omega)]
      | succ k2 =>
        have ht : i + (k2 + 1) = (i + 1) + k2 := by omega
        rw [ht] at hlen htok hdue hcb ⊢
        have hb2 : free / 2 / 2 ^ k2 % 2 = 1 := by
          rw [Nat.div_div_eq_div_mul,
            show 2 * 2 ^ k2 = 2 ^ (k2 + 1) from by rw [pow_succ]; ring]
          exact hbitk
        by_cases hbit : free % 2 = 1
        · rw [if_pos hbit] at h
          by_cases hduei : (execs.getD i default).token ≠ INVALID_DEFERRED_TOKEN ∧
              timer_diff_32 (execs.getD i default).trigger_time now ≤ 0
          · rw [if_pos hduei] at h
            by_cases hcbi : (execs.getD i default).callback = 0
            · rw [if_pos hcbi] at h
              exact absurd h (by simp)
            · rw [if_neg hcbi] at h
              by_cases hdi : 0 < beh (execs.getD i default).callback
                  (execs.getD i default).trigger_time (execs.getD i default).cb_arg
              · rw [if_pos hdi] at h
                obtain ⟨out, hrec, hout⟩ := except_map_ok _ _ _ h
                have hg := getD_set_ne execs (show i ≠ (i + 1) + k2 by omega)
                  (⟨(execs.getD i default).token,
                    ((execs.getD i default).trigger_time +
                      beh (execs.getD i default).callback
                        (execs.getD i default).trigger_time
                        (execs.getD i default).cb_arg) % UINT32_MOD,
                    (execs.getD i default).callback,
                    (execs.getD i default).cb_arg⟩ : deferred_executor_t) default
                have ihres := ih k2 _ _ _ _ _ hrec (by omega) (by omega) hb2
                  (by rw [List.length_set]; exact hlen)
                  (by rw [hg]; exact htok) (by rw [hg]; exact hdue)
                  (by rw [hg]; exact hcb)
                rw [hg] at ihres
                obtain ⟨c1, c2, c3⟩ := ihres
                have hev : r.events = (i, (execs.getD i default).callback,
                    (execs.getD i default).trigger_time,
                    (execs.getD i default).cb_arg) :: out.events := by rw [← hout]
                have hex : r.execs = out.execs := by rw [← hout]
                have hoc : r.occ = out.occ := by rw [← hout]
                refine ⟨?_, ?_, ?_⟩
                · rw [hev, List.filter_cons, if_neg (by simp; omega), c1]
                · intro h0
                  rw [hex]
                  exact c2 h0
                · intro h0
                  obtain ⟨c3a, c3b⟩ := c3 h0
                  exact ⟨by rw [hex]; exact c3a, by rw [hoc]; exact c3b⟩
              · rw [if_neg hdi] at h
                obtain ⟨out, hrec, hout⟩ := except_map_ok _ _ _ h
                have hg := getD_set_ne execs (show i ≠ (i + 1) + k2 by omega)
                  (⟨(execs.getD i default).token,
                    (execs.getD i default).trigger_time, 0, 0⟩ : deferred_executor_t)
                  default
                have ihres := ih k2 _ _ _ _ _ hrec (by omega) (by omega) hb2
                  (by rw [List.length_set]; exact hlen)
                  (by rw [hg]; exact htok) (by rw [hg]; exact hdue)
                  (by rw [hg]; exact hcb)
                rw [hg] at ihres
                obtain ⟨c1, c2, c3⟩ := ihres
                have hev : r.events = (i, (execs.getD i default).callback,
                    (execs.getD i default).trigger_time,
                    (execs.getD i default).cb_arg) :: out.events := by rw [← hout]
                have hex : r.execs = out.execs := by rw [← hout]
                have hoc : r.occ = out.occ := by rw [← hout]
                refine ⟨?_, ?_, ?_⟩
                · rw [hev, List.filter_cons, if_neg (by simp; omega), c1]
                · intro h0
                  rw [hex]
                  exact c2 h0
                · intro h0
                  obtain ⟨c3a, c3b⟩ := c3 h0
                  exact ⟨by rw [hex]; exact c3a, by rw [hoc]; exact c3b⟩
          · rw [if_neg hduei] at h
            exact ih k2 _ _ _ _ _ h (by omega) (by omega) hb2 hlen htok hdue hcb
        · rw [if_neg hbit] at h
          exact ih k2 _ _ _ _ _ h (by omega) (by omega) hb2 hlen htok hdue hcb

theorem defer_eq_of_none (st : DeferredState) (now delay_ms cb arg : Nat)
    (hz : ¬(delay_ms = 0 ∨ cb = 0))
    (hscan : scanFree st.basic_executors_free 0 MAX_DEFERRED_EXECUTORS = none) :
    defer_exec_advanced st now delay_ms cb arg = (st, INVALID_DEFERRED_TOKEN) := by
  simp only [defer_exec_advanced]
  rw [if_neg hz, hscan]

/-! ### Reachable states and the table invariant

The schedule and tick theorems below assume the table invariant `StateOK`
(fixed table length, slot tokens below 255, bitmap confined to the table's four
bit positions).  The lemmas of this section show the invariant holds in the
zero-initialised state and is preserved by every operation, so it holds in
every reachable state. -/

/-- The table invariant: exactly `MAX_DEFERRED_EXECUTORS` slots, every slot
token below 255 (so the `uint8_t` increment in `defer_exec_advanced` cannot
wrap past the band checks to the reserved invalid value), and the occupancy
bitmap confined to the table's bit positions. -/
def StateOK (st : DeferredState) : Prop :=
  st.basic_executors.length = 4 ∧
  (∀ e ∈ st.basic_executors, e.token < 255) ∧
  st.basic_executors_free < 16

/-- States reachable from the zero-initialised module by the operations. -/
inductive Reachable : DeferredState → Prop
  | init : Reachable initial_state
  | defer {st : DeferredState} (now delay_ms cb arg : Nat) : Reachable st →
      Reachable (defer_exec_advanced st now delay_ms cb arg).1
  | extend {st : DeferredState} (now token delay_ms : Nat) : Reachable st →
      Reachable (extend_deferred_exec_advanced st now token delay_ms).1
  | cancel {st : DeferredState} (token : Nat) : Reachable st →
      Reachable (cancel_deferred_exec_advanced st token).1
  | tick {st st2 : DeferredState} {evs : List (Nat × Nat × Nat × Nat)}
      (beh : Nat → Nat → Nat → Nat) (now : Nat) : Reachable st →
      deferred_exec_advanced_task beh st now = .ok (st2, evs) → Reachable st2

theorem stateOK_defer (st : DeferredState) (now delay_ms cb arg : Nat)
    (h : StateOK st) : StateOK (defer_exec_advanced st now delay_ms cb arg).1 := by
  obtain ⟨hlen, htok, hocc⟩ := h
  by_cases hz : delay_ms = 0 ∨ cb = 0
  · simp only [defer_exec_advanced]
    rw [if_pos hz]
    exact ⟨hlen, htok, hocc⟩
  · rcases hscan : scanFree st.basic_executors_free 0 MAX_DEFERRED_EXECUTORS with _ | i
    · rw [defer_eq_of_none st now delay_ms cb arg hz hscan]
      exact ⟨hlen, htok, hocc⟩
    · have hi := scanFree_some_lt _ _ hscan
      rw [defer_eq_of_some st now delay_ms cb arg i hz hscan]
      refine ⟨?_, ?_, ?_⟩
      · show (st.basic_executors.set i _).length = 4
        rw [List.length_set]
        exact hlen
      · intro e he
        rcases List.mem_or_eq_of_mem_set he with he | he
        · exact htok e he
        · subst he
          exact next_token_lt i _ hi
      · show (st.basic_executors_free ||| 2 ^ i) % 256 < 16
        have h24 : (2 : Nat) ^ 4 = 16 := by norm_num
        have h1 : st.basic_executors_free < 2 ^ 4 := by omega
        have h2 : (2 : Nat) ^ i < 2 ^ 4 := Nat.pow_lt_pow_right (by norm_num) hi
        have h3 : st.basic_executors_free ||| 2 ^ i < 2 ^ 4 := Nat.or_lt_two_pow h1 h2
        have h4 := Nat.mod_le (st.basic_executors_free ||| 2 ^ i) 256
        omega

theorem stateOK_extend (st : DeferredState) (now token delay_ms : Nat)
    (h : StateOK st) : StateOK (extend_deferred_exec_advanced st now token delay_ms).1 := by
  obtain ⟨hlen, htok, hocc⟩ := h
  simp only [extend_deferred_exec_advanced]
  split_ifs with h1 h2
  · exact ⟨hlen, htok, hocc⟩
  · refine ⟨?_, ?_, hocc⟩
    · show (st.basic_executors.set _ _).length = 4
      rw [List.length_set]
      exact hlen
    · intro e he
      rcases List.mem_or_eq_of_mem_set he with he | he
      · exact htok e he
      · subst he
        exact getD_token_lt st.basic_executors (recover_index token) htok
  · exact ⟨hlen, htok, hocc⟩

theorem stateOK_cancel (st : DeferredState) (token : Nat)
    (h : StateOK st) : StateOK (cancel_deferred_exec_advanced st token).1 := by
  obtain ⟨hlen, htok, hocc⟩ := h
  simp only [cancel_deferred_exec_advanced]
  split_ifs with h1
  · refine ⟨?_, ?_, hocc⟩
    · show (st.basic_executors.set _ _).length = 4
      rw [List.length_set]
      exact hlen
    · intro e he
      rcases List.mem_or_eq_of_mem_set he with he | he
      · exact htok e he
      · subst he
        exact getD_token_lt st.basic_executors (recover_index token) htok
  · exact ⟨hlen, htok, hocc⟩

theorem tick_loop_preserves (beh : Nat → Nat → Nat → Nat) (now : Nat) :
    ∀ fuel execs occ free i r,
      tick_loop beh now fuel execs occ free i = .ok r →
      r.execs.length = execs.length ∧
      ((∀ e ∈ execs, e.token < 255) → ∀ e ∈ r.execs, e.token < 255) ∧
      r.occ ≤ occ := by
  intro fuel
  induction fuel with
  | zero =>
    intro execs occ free i r h
    simp only [tick_loop] at h
    injection h with h
    subst h
    exact ⟨rfl, fun ht => ht, Nat.le_refl occ⟩
  | succ fuel ih =>
    intro execs occ free i r h
    simp only [tick_loop] at h
    by_cases hfree : free = 0
    · rw [if_pos hfree] at h
      injection h with h
      subst h
      exact ⟨rfl, fun ht => ht, Nat.le_refl occ⟩
    · rw [if_neg hfree] at h
      by_cases hbit : free % 2 = 1
      · rw [if_pos hbit] at h
        by_cases hdue : (execs.getD i default).token ≠ INVALID_DEFERRED_TOKEN ∧
            timer_diff_32 (execs.getD i default).trigger_time now ≤ 0
        · rw [if_pos hdue] at h
          by_cases hcb : (execs.getD i default).callback = 0
          · rw [if_pos hcb] at h
            exact absurd h (by simp)
          · rw [if_neg hcb] at h
            by_cases hd : 0 < beh (execs.getD i default).callback
                (execs.getD i default).trigger_time (execs.getD i default).cb_arg
            · rw [if_pos hd] at h
              obtain ⟨out, hrec, hout⟩ := except_map_ok _ _ _ h
              obtain ⟨p1, p2, p3⟩ := ih _ _ _ _ _ hrec
              have hex : r.execs = out.execs := by rw [← hout]
              have hoc : r.occ = out.occ := by rw [← hout]
              refine ⟨?_, ?_, ?_⟩
              · rw [hex, p1, List.length_set]
              · intro ht e he
                rw [hex] at he
                refine p2 ?_ e he
                intro e2 he2
                rcases List.mem_or_eq_of_mem_set he2 with he2 | he2
                · exact ht e2 he2
                · subst he2
                  exact getD_token_lt execs i ht
              · rw [hoc]
                exact p3
            · rw [if_neg hd] at h
              obtain ⟨out, hrec, hout⟩ := except_map_ok _ _ _ h
              obtain ⟨p1, p2, p3⟩ := ih _ _ _ _ _ hrec
              have hex : r.execs = out.execs := by rw [← hout]
              have hoc : r.occ = out.occ := by rw [← hout]
              refine ⟨?_, ?_, ?_⟩
              · rw [hex, p1, List.length_set]
              · intro ht e he
                rw [hex] at he
                refine p2 ?_ e he
                intro e2 he2
                rcases List.mem_or_eq_of_mem_set he2 with he2 | he2
                · exact ht e2 he2
                · subst he2
                  exact getD_token_lt execs i ht
              · rw [hoc]
                exact Nat.le_trans p3 (Nat.and_le_left)
        · rw [if_neg hdue] at h
          exact ih _ _ _ _ _ h
      · rw [if_neg hbit] at h
        exact ih _ _ _ _ _ h

theorem stateOK_tick (beh : Nat → Nat → Nat → Nat) (st st2 : DeferredState)
    (now : Nat) (evs : List (Nat × Nat × Nat × Nat))
    (hok : deferred_exec_advanced_task beh st now = .ok (st2, evs))
    (h : StateOK st) : StateOK st2 := by
  obtain ⟨hlen, htok, hocc⟩ := h
  unfold deferred_exec_advanced_task at hok
  by_cases hth : 0 < timer_diff_32 now st.last_deferred_exec_check
  · rw [if_pos hth] at hok
    rcases hrec : tick_loop beh now 8 st.basic_executors st.basic_executors_free
        st.basic_executors_free 0 with e | r
    · rw [hrec] at hok
      exact absurd hok (by simp)
    · rw [hrec] at hok
      simp only [Except.ok.injEq, Prod.mk.injEq] at hok
      obtain ⟨hstate, _⟩ := hok
      have hex : r.execs = st2.basic_executors :=
        congrArg DeferredState.basic_executors hstate
      have hoc : r.occ = st2.basic_executors_free :=
        congrArg DeferredState.basic_executors_free hstate
      obtain ⟨p1, p2, p3⟩ := tick_loop_preserves beh now 8 _ _ _ _ _ hrec
      refine ⟨?_, ?_, ?_⟩
      · rw [← hex, p1]
        exact hlen
      · rw [← hex]
        exact p2 htok
      · rw [← hoc]
        omega
  · rw [if_neg hth] at hok
    simp only [Except.ok.injEq, Prod.mk.injEq] at hok
    obtain ⟨hstate, _⟩ := hok
    rw [← hstate]
    exact ⟨hlen, htok, hocc⟩

/-- Every state reachable from the zero-initialised module satisfies the table
invariant assumed by the schedule and tick theorems. -/
theorem reachable_stateOK (st : DeferredState) (h : Reachable st) : StateOK st := by
  induction h with
  | init => exact ⟨by decide, by decide, by decide⟩
  | defer now delay_ms cb arg _ ih => exact stateOK_defer _ now delay_ms cb arg ih
  | extend now token delay_ms _ ih => exact stateOK_extend _ now token delay_ms ih
  | cancel token _ ih => exact stateOK_cancel _ token ih
  | tick beh now _ hok ih => exact stateOK_tick beh _ _ now _ hok ih

/-! ### Claims -/

/-- Claim C1: the code violates live-token uniqueness.  From the zero-initialised
state, two successful schedule calls leave slots 0 and 1 both occupied and both
holding token 1 (the second slot claims slot 1 but, its token field starting at
0, issues `0 + 1 = 1`, which never reaches slot 1's band check).  This
contradicts the source's own comment that "entry 1 will rotate the token as
64..127". -/
theorem two_live_slots_share_token :
    st_one.2 = 1 ∧ st_two.2 = 1 ∧
    st_two.1.basic_executors_free.testBit 0 = true ∧
    st_two.1.basic_executors_free.testBit 1 = true ∧
    (st_two.1.basic_executors.getD 0 default).token =
      (st_two.1.basic_executors.getD 1 default).token := by
  decide

/-- Claim C2: the code violates band confinement.  The second schedule call from
the zero-initialised state is served by slot 1 (its occupancy bit becomes set)
yet returns token 1, which lies in band 0, not in band 1
`[BAND_SIZE, 2*BAND_SIZE - 1]`; consequently index recovery `token / BAND_SIZE`
yields 0, not the issuing slot index 1. -/
theorem slot_one_token_outside_band :
    st_one.1.basic_executors_free.testBit 1 = false ∧
    st_two.1.basic_executors_free.testBit 1 = true ∧
    st_two.2 = 1 ∧
    (st_two.1.basic_executors.getD 1 default).token = 1 ∧
    ¬ (1 * BAND_SIZE ≤ 1 ∧ 1 < 2 * BAND_SIZE) ∧
    recover_index 1 = 0 := by
  decide

/-- Claim C3: the code violates the never-invoke-absent-callback property.
Schedule token 1 with trigger time 1, cancel it successfully (clearing the
callback but leaving the occupancy bit and token), then tick at millisecond 1:
the scan finds the slot occupied with a valid token and a due trigger time and
invokes its `NULL` callback — undefined behaviour, modelled as the `error`
outcome. -/
theorem tick_invokes_null_callback_after_cancel :
    (cancel_deferred_exec_advanced st_c3a 1).2 = true ∧
    (st_c3b.basic_executors.getD 0 default).callback = 0 ∧
    tickAborted (deferred_exec_advanced_task beh0 st_c3b 1) = true := by
  decide

/-- Claim C4 counterexample: three failing inputs for which the claim demands
`false` yet the code returns `true` — (a) cancel of the invalid sentinel on the
fresh state (slot 0's token field is still 0), (b) a second cancel with the same
live token (the first cancel leaves the token field untouched), (c) extend with
a stale token whose booking already fired (tick reclaims the slot but leaves the
token field untouched). -/
theorem cancel_extend_stale_return_true :
    (cancel_deferred_exec_advanced initial_state INVALID_DEFERRED_TOKEN).2 = true ∧
    (cancel_deferred_exec_advanced st_c3a 1).2 = true ∧
    (cancel_deferred_exec_advanced st_c3b 1).2 = true ∧
    st_f2.basic_executors_free = 0 ∧
    (extend_deferred_exec_advanced st_f2 2 1 5).2 = true := by
  decide

/-- Claim C4 (amended): extend returns `true` exactly when the delay is nonzero,
the token differs from the invalid sentinel, and the token equals the stored
token of its candidate slot; cancel returns `true` exactly when the token equals
the stored token of its candidate slot — regardless of sentinel, staleness or a
previous cancel — and in particular a second cancel with the same token before
the slot is structurally reclaimed returns `true` again. -/
theorem extend_cancel_result_characterization (st : DeferredState) (now token delay_ms : Nat) :
    ((extend_deferred_exec_advanced st now token delay_ms).2 = true ↔
      (delay_ms ≠ 0 ∧ token ≠ INVALID_DEFERRED_TOKEN ∧
        (st.basic_executors.getD (recover_index token) default).token = token)) ∧
    ((cancel_deferred_exec_advanced st token).2 = true ↔
      (st.basic_executors.getD (recover_index token) default).token = token) ∧
    ((cancel_deferred_exec_advanced st token).2 = true →
      (cancel_deferred_exec_advanced (cancel_deferred_exec_advanced st token).1 token).2
        = true) := by
  refine ⟨?_, ?_, ?_⟩
  · simp only [extend_deferred_exec_advanced]
    by_cases hz : delay_ms = 0 ∨ token = INVALID_DEFERRED_TOKEN
    · rw [if_pos hz]
      constructor
      · intro h; exact absurd h (by simp)
      · intro h; rcases hz with hz | hz
        · exact absurd hz h.1
        · exact absurd hz h.2.1
    · rw [if_neg hz]
      push_neg at hz
      by_cases hm : (st.basic_executors.getD (recover_index token) default).token = token
      · rw [if_pos hm]
        exact ⟨fun _ => ⟨hz.1, hz.2, hm⟩, fun _ => rfl⟩
      · rw [if_neg hm]
        constructor
        · intro h; exact absurd h (by simp)
        · intro h; exact absurd h.2.2 hm
  · by_cases hm : (st.basic_executors.getD (recover_index token) default).token = token
    · rw [cancel_eq_of_match st token hm]
      exact ⟨fun _ => hm, fun _ => rfl⟩
    · rw [cancel_eq_of_mismatch st token hm]
      constructor
      · intro h; exact absurd h (by simp)
      · intro h; exact absurd h hm
  · intro h
    have hm : (st.basic_executors.getD (recover_index token) default).token = token := by
      by_contra hm
      rw [cancel_eq_of_mismatch st token hm] at h
      exact absurd h (by simp)
    rw [cancel_eq_of_match st token hm]
    by_cases hlen : recover_index token < st.basic_executors.length
    · rw [cancel_eq_of_match _ token (by rw [getD_set_self _ _ _ _ hlen]; exact hm)]
    · rw [cancel_eq_of_match _ token
        (by rw [List.set_eq_of_length_le (Nat.le_of_not_lt hlen)]; exact hm)]

/-- Claim C4 amended, witnessed at a concrete state: the characterization applied
to the one-booking state `st_c3a` and token 1. -/
theorem extend_cancel_result_characterization_witness :
    ((extend_deferred_exec_advanced st_c3a 0 1 5).2 = true ↔
      ((5 : Nat) ≠ 0 ∧ (1 : Nat) ≠ INVALID_DEFERRED_TOKEN ∧
        (st_c3a.basic_executors.getD (recover_index 1) default).token = 1)) ∧
    ((cancel_deferred_exec_advanced st_c3a 1).2 = true ↔
      (st_c3a.basic_executors.getD (recover_index 1) default).token = 1) ∧
    ((cancel_deferred_exec_advanced st_c3a 1).2 = true →
      (cancel_deferred_exec_advanced (cancel_deferred_exec_advanced st_c3a 1).1 1).2
        = true) :=
  extend_cancel_result_characterization st_c3a 0 1 5

theorem scanFree_ne_none_of_clear (f i : Nat) (hi : i < 4) (h : f.testBit i = false) :
    scanFree f 0 MAX_DEFERRED_EXECUTORS ≠ none := by
  rw [Ne, scanFree_none_iff]
  intro hall
  rw [Nat.testBit_to_div_mod] at h
  exact (of_decide_eq_false h) (hall i hi)

/-- Claim C5: when a non-throttled tick processes a due occupied slot `i`
(occupancy bit set, stored token valid, wraparound-safe signed difference
`trigger_time - now ≤ 0`, callback present), the callback is invoked exactly
once in that pass, with the slot's trigger time and stored argument; if it
returns `d > 0` the slot's new trigger time is the previous trigger time plus
`d` (in `uint32` arithmetic) — not `now + d`; if it returns 0 the slot's
occupancy bit and its callback and argument fields are cleared, and the table
again has a free slot for a subsequent schedule call. -/
theorem tick_fires_due_slot (beh : Nat → Nat → Nat → Nat) (st st2 : DeferredState)
    (now i : Nat) (evs : List (Nat × Nat × Nat × Nat))
    (hok : deferred_exec_advanced_task beh st now = .ok (st2, evs))
    (hth : 0 < timer_diff_32 now st.last_deferred_exec_check)
    (hocc : st.basic_executors_free < 16)
    (hbit : st.basic_executors_free / 2 ^ i % 2 = 1)
    (hlen : i < st.basic_executors.length)
    (htok : (st.basic_executors.getD i default).token ≠ INVALID_DEFERRED_TOKEN)
    (hdue : timer_diff_32 (st.basic_executors.getD i default).trigger_time now ≤ 0)
    (hcb : (st.basic_executors.getD i default).callback ≠ 0) :
    (evs.filter (fun e => e.1 == i) =
      [(i, (st.basic_executors.getD i default).callback,
        (st.basic_executors.getD i default).trigger_time,
        (st.basic_executors.getD i default).cb_arg)]) ∧
    (0 < beh (st.basic_executors.getD i default).callback
        (st.basic_executors.getD i default).trigger_time
        (st.basic_executors.getD i default).cb_arg →
      st2.basic_executors.getD i default =
        ⟨(st.basic_executors.getD i default).token,
         ((st.basic_executors.getD i default).trigger_time +
           beh (st.basic_executors.getD i default).callback
             (st.basic_executors.getD i default).trigger_time
             (st.basic_executors.getD i default).cb_arg) % UINT32_MOD,
         (st.basic_executors.getD i default).callback,
         (st.basic_executors.getD i default).cb_arg⟩) ∧
    (beh (st.basic_executors.getD i default).callback
        (st.basic_executors.getD i default).trigger_time
        (st.basic_executors.getD i default).cb_arg = 0 →
      st2.basic_executors.getD i default =
        ⟨(st.basic_executors.getD i default).token,
         (st.basic_executors.getD i default).trigger_time, 0, 0⟩ ∧
      st2.basic_executors_free.testBit i = false ∧
      scanFree st2.basic_executors_free 0 MAX_DEFERRED_EXECUTORS ≠ none) := by
  have hi4 : i < 4 := by
    by_contra hge
    have h16 : (16 : Nat) ≤ 2 ^ i := by
      calc (16 : Nat) = 2 ^ 4 := by norm_num
      _ ≤ 2 ^ i := Nat.pow_le_pow_right (by norm_num) (by omega)
    rw [Nat.div_eq_of_lt (by omega)] at hbit
    simp at hbit
  unfold deferred_exec_advanced_task at hok
  rw [if_pos hth] at hok
  rcases hrec : tick_loop beh now 8 st.basic_executors st.basic_executors_free
      st.basic_executors_free 0 with e | r
  · rw [hrec] at hok
    exact absurd hok (by simp)
  · rw [hrec] at hok
    simp only [Except.ok.injEq, Prod.mk.injEq] at hok
    obtain ⟨hstate, hevs⟩ := hok
    have hex : r.execs = st2.basic_executors :=
      congrArg DeferredState.basic_executors hstate
    have hoc : r.occ = st2.basic_executors_free :=
      congrArg DeferredState.basic_executors_free hstate
    have hloop := tick_loop_due beh now 8 i st.basic_executors st.basic_executors_free
      st.basic_executors_free 0 r hrec (by omega) (by omega)
      hbit (by simpa using hlen) (by simpa using htok) (by simpa using hdue)
      (by simpa using hcb)
    simp only [Nat.zero_add] at hloop
    obtain ⟨c1, c2, c3⟩ := hloop
    refine ⟨?_, ?_, ?_⟩
    · rw [← hevs]
      exact c1
    · intro h0
      rw [← hex]
      exact c2 h0
    · intro h0
      obtain ⟨c3a, c3b⟩ := c3 h0
      refine ⟨by rw [← hex]; exact c3a, by rw [← hoc]; exact c3b, ?_⟩
      exact scanFree_ne_none_of_clear _ i hi4 (by rw [← hoc]; exact c3b)

/-- Claim C5 witness: a tick at millisecond 5 on the one-booking state `stW`
(slot 0: token 1, trigger time 5, callback 7, argument 9) with a behaviour
oracle that declines repetition fires the callback exactly once and reclaims
the slot. -/
theorem tick_fires_due_slot_witness :
    (([(0, 7, 5, 9)] : List (Nat × Nat × Nat × Nat)).filter (fun e => e.1 == 0) =
      [(0, (stW.basic_executors.getD 0 default).callback,
        (stW.basic_executors.getD 0 default).trigger_time,
        (stW.basic_executors.getD 0 default).cb_arg)]) ∧
    (0 < beh0 (stW.basic_executors.getD 0 default).callback
        (stW.basic_executors.getD 0 default).trigger_time
        (stW.basic_executors.getD 0 default).cb_arg →
      stW2.basic_executors.getD 0 default =
        ⟨(stW.basic_executors.getD 0 default).token,
         ((stW.basic_executors.getD 0 default).trigger_time +
           beh0 (stW.basic_executors.getD 0 default).callback
             (stW.basic_executors.getD 0 default).trigger_time
             (stW.basic_executors.getD 0 default).cb_arg) % UINT32_MOD,
         (stW.basic_executors.getD 0 default).callback,
         (stW.basic_executors.getD 0 default).cb_arg⟩) ∧
    (beh0 (stW.basic_executors.getD 0 default).callback
        (stW.basic_executors.getD 0 default).trigger_time
        (stW.basic_executors.getD 0 default).cb_arg = 0 →
      stW2.basic_executors.getD 0 default =
        ⟨(stW.basic_executors.getD 0 default).token,
         (stW.basic_executors.getD 0 default).trigger_time, 0, 0⟩ ∧
      stW2.basic_executors_free.testBit 0 = false ∧
      scanFree stW2.basic_executors_free 0 MAX_DEFERRED_EXECUTORS ≠ none) :=
  tick_fires_due_slot beh0 stW stW2 5 0 [(0, 7, 5, 9)] rfl (by decide) (by decide)
    (by decide) (by decide) (by decide) (by decide) (by decide)

/-- Claim C6: on a state whose slot tokens are all below 255 (an invariant of
every state reachable from the zero-initialised module), schedule returns the
invalid sentinel exactly when the delay is zero, the callback is absent, or all
four occupancy bits are set; and in every such failure case the whole state is
returned unchanged. -/
theorem schedule_invalid_iff (st : DeferredState) (now delay_ms cb arg : Nat)
    (htok : ∀ e ∈ st.basic_executors, e.token < 255) :
    ((defer_exec_advanced st now delay_ms cb arg).2 = INVALID_DEFERRED_TOKEN ↔
      (delay_ms = 0 ∨ cb = 0 ∨
        ∀ i, i < 4 → st.basic_executors_free / 2 ^ i % 2 = 1)) ∧
    ((defer_exec_advanced st now delay_ms cb arg).2 = INVALID_DEFERRED_TOKEN →
      (defer_exec_advanced st now delay_ms cb arg).1 = st) := by
  by_cases hz : delay_ms = 0 ∨ cb = 0
  · have heq : defer_exec_advanced st now delay_ms cb arg = (st, INVALID_DEFERRED_TOKEN) := by
      simp only [defer_exec_advanced]; rw [if_pos hz]
    rw [heq]
    exact ⟨⟨fun _ => by tauto, fun _ => rfl⟩, fun _ => rfl⟩
  · rcases hscan : scanFree st.basic_executors_free 0 MAX_DEFERRED_EXECUTORS with _ | i
    · rw [defer_eq_of_none st now delay_ms cb arg hz hscan]
      exact ⟨⟨fun _ => Or.inr (Or.inr ((scanFree_none_iff _).mp hscan)),
        fun _ => rfl⟩, fun _ => rfl⟩
    · have hi : i < 4 := scanFree_some_lt _ _ hscan
      have hnz : next_token i (st.basic_executors.getD i default).token
          ≠ INVALID_DEFERRED_TOKEN :=
        next_token_ne_zero i _ hi (getD_token_lt st.basic_executors i htok)
      rw [defer_eq_of_some st now delay_ms cb arg i hz hscan]
      constructor
      · constructor
        · intro h; exact absurd h hnz
        · intro h
          rcases h with h | h | h
          · exact absurd h (by tauto)
          · exact absurd h (by tauto)
          · exact absurd hscan (by rw [(scanFree_none_iff _).mpr h]; simp)
      · intro h; exact absurd h hnz

/-- Claim C6 witness: schedule with a zero delay on the fresh state returns the
invalid sentinel and leaves the state unchanged. -/
theorem schedule_invalid_iff_witness :
    ((defer_exec_advanced initial_state 0 0 1 0).2 = INVALID_DEFERRED_TOKEN ↔
      ((0 : Nat) = 0 ∨ (1 : Nat) = 0 ∨
        ∀ i, i < 4 → initial_state.basic_executors_free / 2 ^ i % 2 = 1)) ∧
    ((defer_exec_advanced initial_state 0 0 1 0).2 = INVALID_DEFERRED_TOKEN →
      (defer_exec_advanced initial_state 0 0 1 0).1 = initial_state) :=
  schedule_invalid_iff initial_state 0 0 1 0 (by decide)

/-- Claim C7: schedule with a positive delay, a present callback, and `i` the
lowest index whose occupancy bit is clear (on a state whose slot tokens are all
below 255) claims exactly slot `i`: it returns a token different from the
invalid sentinel, stores that token together with trigger time
`now + delay_ms` (`uint32` arithmetic), the callback and the argument in slot
`i`, sets occupancy bit `i`, and changes no other occupancy bit and not
`last_check`. -/
theorem schedule_success (st : DeferredState) (now delay_ms cb arg i : Nat)
    (hd : delay_ms ≠ 0) (hcb : cb ≠ 0) (hi : i < 4)
    (hocc : st.basic_executors_free < 256)
    (hfree : st.basic_executors_free / 2 ^ i % 2 = 0)
    (hlow : ∀ j, j < i → st.basic_executors_free / 2 ^ j % 2 = 1)
    (htok : ∀ e ∈ st.basic_executors, e.token < 255) :
    (defer_exec_advanced st now delay_ms cb arg).2 ≠ INVALID_DEFERRED_TOKEN ∧
    (defer_exec_advanced st now delay_ms cb arg).1.basic_executors =
      st.basic_executors.set i
        ⟨(defer_exec_advanced st now delay_ms cb arg).2,
         (now + delay_ms) % UINT32_MOD, cb, arg⟩ ∧
    (defer_exec_advanced st now delay_ms cb arg).1.basic_executors_free.testBit i
      = true ∧
    (∀ j, j ≠ i →
      (defer_exec_advanced st now delay_ms cb arg).1.basic_executors_free.testBit j
        = st.basic_executors_free.testBit j) ∧
    (defer_exec_advanced st now delay_ms cb arg).1.last_deferred_exec_check
      = st.last_deferred_exec_check := by
  have hscan := scanFree_some_of_lowest _ i hi hfree hlow
  have hnz : next_token i (st.basic_executors.getD i default).token
      ≠ INVALID_DEFERRED_TOKEN :=
    next_token_ne_zero i _ hi (getD_token_lt st.basic_executors i htok)
  rw [defer_eq_of_some st now delay_ms cb arg i (by tauto) hscan]
  have hor : (st.basic_executors_free ||| 2 ^ i) < 256 := by
    have h2 : (2 : Nat) ^ i < 256 := two_pow_lt_256 (by omega)
    calc st.basic_executors_free ||| 2 ^ i < 2 ^ 8 :=
        Nat.or_lt_two_pow (by norm_num at hocc ⊢; omega) (by norm_num at h2 ⊢; omega)
    _ = 256 := by norm_num
  have hmod : (st.basic_executors_free ||| 2 ^ i) % 256
      = st.basic_executors_free ||| 2 ^ i := Nat.mod_eq_of_lt hor
  refine ⟨hnz, rfl, ?_, ?_, rfl⟩
  · show ((st.basic_executors_free ||| 2 ^ i) % 256).testBit i = true
    rw [hmod]; exact or_two_pow_testBit_self _ i
  · intro j hj
    show ((st.basic_executors_free ||| 2 ^ i) % 256).testBit j
      = st.basic_executors_free.testBit j
    rw [hmod]; exact or_two_pow_testBit_ne _ i j (fun h => hj h.symm)

/-- Claim C7 witness: the first schedule call on the fresh state claims slot 0
with trigger time 10, callback 1, argument 2. -/
theorem schedule_success_witness :
    (defer_exec_advanced initial_state 0 10 1 2).2 ≠ INVALID_DEFERRED_TOKEN ∧
    (defer_exec_advanced initial_state 0 10 1 2).1.basic_executors =
      initial_state.basic_executors.set 0
        ⟨(defer_exec_advanced initial_state 0 10 1 2).2,
         (0 + 10) % UINT32_MOD, 1, 2⟩ ∧
    (defer_exec_advanced initial_state 0 10 1 2).1.basic_executors_free.testBit 0
      = true ∧
    (∀ j, j ≠ 0 →
      (defer_exec_advanced initial_state 0 10 1 2).1.basic_executors_free.testBit j
        = initial_state.basic_executors_free.testBit j) ∧
    (defer_exec_advanced initial_state 0 10 1 2).1.last_deferred_exec_check
      = initial_state.last_deferred_exec_check :=
  schedule_success initial_state 0 10 1 2 0 (by decide) (by decide) (by decide)
    (by decide) (by decide) (fun j hj => absurd hj (Nat.not_lt_zero j)) (by decide)

/-- Claim C9: extend with a positive delay and a token matching the candidate
slot's stored token returns `true` and overwrites that slot's trigger time with
`now + delay_ms` (in `uint32` arithmetic, `now` read at the time of the extend
call), preserving the slot's callback and argument; extend with a zero delay or
the invalid sentinel returns `false` and leaves the state unchanged. -/
theorem extend_success_and_failure (st : DeferredState) (now token delay_ms : Nat) :
    ((delay_ms = 0 ∨ token = INVALID_DEFERRED_TOKEN) →
      extend_deferred_exec_advanced st now token delay_ms = (st, false)) ∧
    (delay_ms ≠ 0 → token ≠ INVALID_DEFERRED_TOKEN →
      (st.basic_executors.getD (recover_index token) default).token = token →
      extend_deferred_exec_advanced st now token delay_ms =
        (⟨st.last_deferred_exec_check,
          st.basic_executors.set (recover_index token)
            ⟨token, (now + delay_ms) % UINT32_MOD,
             (st.basic_executors.getD (recover_index token) default).callback,
             (st.basic_executors.getD (recover_index token) default).cb_arg⟩,
          st.basic_executors_free⟩, true)) := by
  constructor
  · intro h
    simp only [extend_deferred_exec_advanced]
    rw [if_pos h]
  · intro h1 h2 hm
    simp only [extend_deferred_exec_advanced]
    rw [if_neg (by tauto), if_pos hm, hm]

/-- Claim C9 witness: the success branch at the one-booking state `st_c3a`,
token 1, delay 5, and the failure branch at delay 0. -/
theorem extend_success_and_failure_witness :
    (((0 : Nat) = 0 ∨ (1 : Nat) = INVALID_DEFERRED_TOKEN) →
      extend_deferred_exec_advanced st_c3a 3 1 0 = (st_c3a, false)) ∧
    ((0 : Nat) ≠ 0 → (1 : Nat) ≠ INVALID_DEFERRED_TOKEN →
      (st_c3a.basic_executors.getD (recover_index 1) default).token = 1 →
      extend_deferred_exec_advanced st_c3a 3 1 0 =
        (⟨st_c3a.last_deferred_exec_check,
          st_c3a.basic_executors.set (recover_index 1)
            ⟨1, (3 + 0) % UINT32_MOD,
             (st_c3a.basic_executors.getD (recover_index 1) default).callback,
             (st_c3a.basic_executors.getD (recover_index 1) default).cb_arg⟩,
          st_c3a.basic_executors_free⟩, true)) :=
  extend_success_and_failure st_c3a 3 1 0

/-- Claim C10: for every token value representable in the `uint8_t` token type,
the candidate index computed by extend and cancel is strictly below
`MAX_DEFERRED_EXECUTORS`, so the slot-array access is in bounds for every
caller-supplied token. -/
theorem recover_index_in_bounds (token : Nat) (h : token < MAX_TOKEN_VALUE) :
    recover_index token < MAX_DEFERRED_EXECUTORS ∧
    recover_index token < initial_state.basic_executors.length := by
  unfold recover_index MAX_TOKEN_VALUE MAX_DEFERRED_EXECUTORS at *
  constructor
  · omega
  · simpa [initial_state, MAX_DEFERRED_EXECUTORS] using by omega

/-- Claim C10 witness: the bound applied to the largest representable token. -/
theorem recover_index_in_bounds_witness :
    (255 : Nat) < MAX_TOKEN_VALUE ∧
    (recover_index 255 < MAX_DEFERRED_EXECUTORS ∧
      recover_index 255 < initial_state.basic_executors.length) :=
  ⟨by decide, recover_index_in_bounds 255 (by decide)⟩

/-- Claim C8: the tick is throttled to at most one scan per millisecond — when
the wraparound-safe signed difference `now - last_check` is not strictly
positive the task returns at once with the whole state unchanged and no
invocation performed, and after any completed tick a second tick at the same
clock millisecond is such a no-op. -/
theorem tick_throttled_and_idempotent (beh : Nat → Nat → Nat → Nat)
    (st st2 : DeferredState) (now : Nat) (evs : List (Nat × Nat × Nat × Nat))
    (h1 : deferred_exec_advanced_task beh st now = .ok (st2, evs)) :
    (timer_diff_32 now st.last_deferred_exec_check ≤ 0 → st2 = st ∧ evs = []) ∧
    deferred_exec_advanced_task beh st2 now = .ok (st2, []) := by
  by_cases hth : 0 < timer_diff_32 now st.last_deferred_exec_check
  · unfold deferred_exec_advanced_task at h1
    rw [if_pos hth] at h1
    rcases hmatch : tick_loop beh now 8 st.basic_executors st.basic_executors_free
        st.basic_executors_free 0 with e | r
    · rw [hmatch] at h1; exact absurd h1 (by simp)
    · rw [hmatch] at h1
      simp only [Except.ok.injEq, Prod.mk.injEq] at h1
      obtain ⟨ha, _hb⟩ := h1
      constructor
      · intro hle; omega
      · unfold deferred_exec_advanced_task
        rw [← ha]
        rw [if_neg (by rw [timer_diff_32_self_mod]; omega)]
  · unfold deferred_exec_advanced_task at h1
    rw [if_neg hth] at h1
    simp only [Except.ok.injEq, Prod.mk.injEq] at h1
    obtain ⟨ha, hb⟩ := h1
    refine ⟨fun _ => ⟨ha.symm, hb.symm⟩, ?_⟩
    unfold deferred_exec_advanced_task
    rw [← ha, if_neg hth, hb]

/-- Claim C8 witness: a tick at millisecond 5 on a state with one due booking
performs the scan, and repeating the tick at the same millisecond is a no-op. -/
theorem tick_throttled_and_idempotent_witness :
    (timer_diff_32 5 stW.last_deferred_exec_check ≤ 0 →
      stW2 = stW ∧ ([(0, 7, 5, 9)] : List (Nat × Nat × Nat × Nat)) = []) ∧
    deferred_exec_advanced_task beh0 stW2 5 = .ok (stW2, []) :=
  tick_throttled_and_idempotent beh0 stW stW2 5 [(0, 7, 5, 9)] rfl

end DeferredExec
